import Mathlib

/-!
Verification development for the directory-browser core of
`source/arm11/filebrowser.c` (open_agb_firm fork).

The embedding mirrors the C source:
* strings are byte lists (`List Nat`, NUL-free; the terminating 0 is the
  end of the list),
* the heap is modelled by an allocation counter plus the set of live block
  ids; `fcramAlloc` success is driven by an oracle (`List Bool`, indexed by
  allocation number, defaulting to success),
* `u32`/`s32` arithmetic is `Nat`/`Int` with explicit `% 2^32` where the C
  performs unsigned casts or unsigned wraparound,
* undefined behaviour that the C code can actually reach (null dereference,
  read of an uninitialized field, invalid free, out-of-bounds access) is made
  explicit as a `ub` outcome carrying the heap at the moment it happens.
-/

/-- C `strcmp` on NUL-terminated byte strings: bytes are compared as
unsigned values; the end of the list plays the role of the terminating 0. -/
def strcmp : List Nat → List Nat → Int
  | [], [] => 0
  | [], b :: _ => 0 - (b : Int)
  | a :: _, [] => (a : Int) - 0
  | a :: as, b :: bs =>
    if (a : Int) - (b : Int) ≠ 0 then (a : Int) - (b : Int)
    else if a = 0 then 0 else strcmp as bs

/-- `enum DirEntryType`: `ENTRY_FILE = 0`. -/
def ENTRY_FILE : Nat := 0

/-- `enum DirEntryType`: `ENTRY_DIRECTORY = 1`. -/
def ENTRY_DIRECTORY : Nat := 1

/-- `DLIST_GROW_SIZE` from the source. -/
def DLIST_GROW_SIZE : Nat := 128

/-- One `DirEntry`: the `type` tag, the heap id of the separately allocated
name buffer, and the bytes stored in it by `safeStrcpy`. -/
structure MEntry where
  type : Nat
  nameId : Nat
  name : List Nat
  deriving DecidableEq, Repr

/-- `dlistCompare`: directories (`type` 1) sort before files (`type` 0) via
`(int)entB->type - (int)entA->type`; equal tags fall through to `strcmp`
(the alternative hand-rolled comparison loop in the source is commented out
and therefore dead code). -/
def dlistCompare (a b : MEntry) : Int :=
  if a.type ≠ b.type then (b.type : Int) - (a.type : Int)
  else strcmp a.name b.name

/-- The order `qsort` is asked to establish: `dlistCompare a b ≤ 0`. -/
def entLe (a b : MEntry) : Prop := dlistCompare a b ≤ 0

/-- Ordered insertion with respect to `dlistCompare`. -/
def orderedIns (e : MEntry) : List MEntry → List MEntry
  | [] => [e]
  | x :: xs => if dlistCompare e x ≤ 0 then e :: x :: xs else x :: orderedIns e xs

/-- Model of the libc `qsort(dList->entries, dList->size, …, dlistCompare)`
call: a comparison sort producing a list sorted under `dlistCompare`
(`qsort` is an unstable general-purpose sort; any sort agreeing with the
comparator refines it). -/
def dlistSort : List MEntry → List MEntry
  | [] => []
  | e :: es => orderedIns e (dlistSort es)

/-- The `continue` condition of `scanDir` for file entries
(`filebrowser.c` lines 135-136):
`nameLen <= filterLen || strcmp(filter, fname + nameLen - filterLen) != 0
 || fname[0] == '.'`. `fname + nameLen - filterLen` is the trailing
`filterLen` bytes, i.e. `drop (nameLen - filterLen)`; `'.' = 46`. -/
def skipFile (filter fname : List Nat) : Bool :=
  decide (fname.length ≤ filter.length) ||
  decide (strcmp filter (fname.drop (fname.length - filter.length)) ≠ 0) ||
  decide (fname.headD 0 = 46)

/-- The entry-admission test as executed in the scan loop: the filter only
applies when `entType == ENTRY_FILE`; directories are never skipped. -/
def entrySkipped (filter fname : List Nat) (entType : Nat) : Bool :=
  decide (entType = ENTRY_FILE) && skipFile filter fname

/-- Heap model: `cnt` counts allocation attempts (and doubles as the next
block id); `live` is the list of currently allocated block ids. -/
structure Heap where
  cnt : Nat
  live : List Nat
  deriving DecidableEq, Repr

/-- `fcramAlloc`: succeeds iff the oracle entry for this allocation number
is `true` (missing entries default to success). A successful allocation
returns a fresh id and marks it live. -/
def halloc (oracle : List Bool) (h : Heap) : Option Nat × Heap :=
  if oracle.getD h.cnt true then
    (some h.cnt, ⟨h.cnt + 1, h.cnt :: h.live⟩)
  else (none, ⟨h.cnt + 1, h.live⟩)

/-- `fcramFree` of a non-null pointer: `none` signals an invalid free
(the id is not live, i.e. a double free or a foreign pointer). -/
def hfree (h : Heap) (i : Nat) : Option Heap :=
  if i ∈ h.live then some ⟨h.cnt, h.live.erase i⟩ else none

/-- A `DirList` object: `id` is the heap id of its backing storage,
`capacity`/`size` are the header fields (`size = none` models the field
being uninitialized memory), and `entries` is the initialized prefix of the
entry array, in index order. -/
structure MDirList where
  id : Nat
  capacity : Nat
  size : Option Nat
  entries : List MEntry
  deriving DecidableEq, Repr

/-- The kinds of undefined behaviour the modelled code can reach. -/
inductive UBKind where
  | nullDeref
  | uninitRead
  | invalidFree
  | oob
  deriving DecidableEq, Repr

/-- `Result` values used by this translation unit. -/
inductive Res where
  | ok
  | outOfMem
  | invalidArg
  | ioError
  deriving DecidableEq, Repr

/-- Outcome of a stateful operation: a value with the resulting heap, or an
undefined-behaviour stop with the heap at that moment. -/
inductive HRes (α : Type) where
  | ok (a : α) (h : Heap)
  | ub (e : UBKind) (h : Heap)
  deriving DecidableEq, Repr

/-- `dlistNew`: allocate backing storage for `DLIST_GROW_SIZE` entries, set
`capacity` and `size`; the entry array starts uninitialized (empty prefix). -/
def dlistNew (oracle : List Bool) (h : Heap) : Option MDirList × Heap :=
  match halloc oracle h with
  | (none, h1) => (none, h1)
  | (some i, h1) => (some ⟨i, DLIST_GROW_SIZE, some 0, []⟩, h1)

/-- Free the `name` of each entry of a list segment in index order. -/
def freeNames (h : Heap) : List MEntry → HRes Unit
  | [] => .ok () h
  | e :: es =>
    match hfree h e.nameId with
    | some h1 => freeNames h1 es
    | none => .ub .invalidFree h

/-- `dlistFree(dlist)`: the argument models the `DirList*` pointer
(`none` = NULL, which the C dereferences via `dlist->size`). Frees
`entries[i].name` for `i < size` and then the backing storage. Reading a
`size` that was never initialized, or indexing past the initialized prefix,
is undefined behaviour. -/
def dlistFree (h : Heap) (d : Option MDirList) : HRes Unit :=
  match d with
  | none => .ub .nullDeref h
  | some dl =>
    match dl.size with
    | none => .ub .uninitRead h
    | some sz =>
      if sz ≤ dl.entries.length then
        match freeNames h (dl.entries.take sz) with
        | .ub e h1 => .ub e h1
        | .ok _ h1 =>
          match hfree h1 dl.id with
          | some h2 => .ok () h2
          | none => .ub .invalidFree h1
      else .ub .oob h

/-- `dlistGrow`: allocate storage for `capacity + DLIST_GROW_SIZE` entries.
On allocation failure the old backing storage is freed and NULL (`none`) is
returned (the entry names are not freed — they are only reachable through
the storage just freed). On success the source sets `newList->capacity`,
`memcpy`s `size` entries and frees the old storage, but never assigns
`newList->size`, so the new header's `size` field is uninitialized
(`none`). -/
def dlistGrow (oracle : List Bool) (h : Heap) (d : MDirList) : HRes (Option MDirList) :=
  match halloc oracle h with
  | (none, h1) =>
    match hfree h1 d.id with
    | some h2 => .ok none h2
    | none => .ub .invalidFree h1
  | (some nid, h1) =>
    match d.size with
    | none => .ub .uninitRead h1
    | some sz =>
      if sz ≤ d.entries.length then
        match hfree h1 d.id with
        | some h2 => .ok (some ⟨nid, d.capacity + DLIST_GROW_SIZE, none, d.entries.take sz⟩) h2
        | none => .ub .invalidFree h1
      else .ub .oob h1

/-- How the entry-reading loop of `scanDir` terminates. -/
inductive LoopExit where
  | done (res : Res) (d : MDirList)
  | bail (d : Option MDirList)
  deriving DecidableEq, Repr

/-- The entry-processing loop of `scanDir` (lines 125-158). `fReadDir` is
modelled as delivering the directory's entries `(fname, isDir)` in order and
then signalling the end; batching into `DIR_READ_BLOCKS`-sized reads does
not change the per-entry processing. `bail` corresponds to `goto bail`
(both `goto bail` sites set `res = RES_OUT_OF_MEM` first). Writing
`entries[numEntries]` is in-bounds for the initialized prefix model iff
`numEntries` is at most the prefix length and below `capacity`. -/
def scanLoop (oracle : List Bool) (filter : List Nat) :
    Heap → MDirList → Nat → List (List Nat × Bool) → HRes LoopExit
  | h, d, _, [] => .ok (.done Res.ok d) h
  | h, d, numEntries, (fname, isDir) :: rest =>
    let entType : Nat := if isDir then ENTRY_DIRECTORY else ENTRY_FILE
    if entrySkipped filter fname entType then
      scanLoop oracle filter h d numEntries rest
    else
      match d.size with
      | none => .ub .uninitRead h
      | some sz =>
        match (if sz = d.capacity then dlistGrow oracle h d else .ok (some d) h) with
        | .ub e h1 => .ub e h1
        | .ok none h1 => .ok (.bail none) h1
        | .ok (some d1) h1 =>
          match halloc oracle h1 with
          | (none, h2) => .ok (.bail (some d1)) h2
          | (some nid, h2) =>
            if numEntries < d1.entries.length then
              scanLoop oracle filter h2
                { d1 with entries := d1.entries.set numEntries ⟨entType, nid, fname⟩,
                          size := some (numEntries + 1) }
                (numEntries + 1) rest
            else if numEntries = d1.entries.length ∧ numEntries < d1.capacity then
              scanLoop oracle filter h2
                { d1 with entries := d1.entries ++ [⟨entType, nid, fname⟩],
                          size := some (numEntries + 1) }
                (numEntries + 1) rest
            else .ub .oob h2

/-- `scanDir(path, filter, dListOut)` (lines 109-175).

* `outIsNull` models `dListOut == NULL` (immediate `RES_INVALID_ARG`).
* `prev` is the incoming `*dListOut` (`none` = NULL). The returned
  `Option MDirList` is the final contents of `*dListOut`: the source only
  assigns it on the path reaching line 167, so on every earlier return the
  caller's slot still holds `prev` even though its backing storage may have
  been freed at line 112. Line 112 spells the freed pointer `*dlistOut`
  (an undeclared identifier; the parameter is `dListOut`) — the evident
  intent `fcramFree(*dListOut)` is translated, and note it frees only the
  backing storage, not the entry names.
* `openOk` is the `fOpenDir` outcome (`false` yields an I/O error result;
  the body is skipped but the tail of the function still runs).
* `fReadDir` is modelled as succeeding, delivering `dirents`. -/
def scanDir (oracle : List Bool) (h : Heap) (outIsNull : Bool) (prev : Option MDirList)
    (openOk : Bool) (dirents : List (List Nat × Bool)) (filter : List Nat) :
    HRes (Res × Option MDirList) :=
  if outIsNull then .ok (Res.invalidArg, prev) h
  else
    match (match prev with | some p => hfree h p.id | none => some h) with
    | none => .ub .invalidFree h
    | some h1 =>
      match halloc oracle h1 with
      | (none, h2) => .ok (Res.outOfMem, prev) h2
      | (some fisId, h2) =>
        match dlistNew oracle h2 with
        | (none, h3) => .ok (Res.outOfMem, prev) h3
        | (some d0, h3) =>
          match (if openOk then scanLoop oracle filter h3 d0 0 dirents
                 else .ok (.done Res.ioError d0) h3) with
          | .ub e h4 => .ub e h4
          | .ok (.bail dOpt) h4 =>
            match hfree h4 fisId with
            | none => .ub .invalidFree h4
            | some h5 =>
              match dlistFree h5 dOpt with
              | .ub e h6 => .ub e h6
              | .ok _ h6 => .ok (Res.outOfMem, prev) h6
          | .ok (.done res d1) h4 =>
            match hfree h4 fisId with
            | none => .ub .invalidFree h4
            | some h5 =>
              match d1.size with
              | none => .ub .uninitRead h5
              | some sz =>
                if sz ≤ d1.entries.length then
                  .ok (res, some { d1 with
                    entries := dlistSort (d1.entries.take sz) ++ d1.entries.drop sz }) h5
                else .ub .oob h5

/-- `SCREEN_ROWS`, the page size of the browser. -/
def SCREEN_ROWS : Nat := 24

/-- `2^32`, the modulus of `u32` arithmetic. -/
def U32M : Nat := 4294967296

/-- The C cast `(u32)x` of a signed 32-bit value. -/
def u32 (x : Int) : Nat := (x % (U32M : Int)).toNat

/-- The direction keys read by the navigation loop. -/
structure KeysDown where
  dright : Bool
  dleft : Bool
  dup : Bool
  ddown : Bool
  deriving DecidableEq, Repr

/-- Navigation state: `cursorPos` is `s32`, `windowPos` is `u32`
(modelled as `Nat`; the code keeps it below `2^31` in practice). -/
structure NavState where
  cursorPos : Int
  windowPos : Nat
  deriving DecidableEq, Repr

/-- The cursor-movement arithmetic of `browseFiles` (lines 249-265):
guarded by `num != 0`, the four key handlers run in sequence on the same
`cursorPos`. `cursorPos = num - 1` converts `u32` to `s32`; for
`num ≤ 2^31` (and `num = 0`, where both give `-1`) this equals
`(num : Int) - 1`. -/
def moveCursor (k : KeysDown) (num : Nat) (c0 : Int) : Int :=
  if num ≠ 0 then
    let c1 := if k.dright then
        (let t := c0 + (SCREEN_ROWS : Int)
         if u32 t > num then (num : Int) - 1 else t)
      else c0
    let c2 := if k.dleft then
        (let t := c1 - (SCREEN_ROWS : Int)
         if t < -1 then 0 else t)
      else c1
    let c3 := if k.dup then c2 - 1 else c2
    if k.ddown then c3 + 1 else c3
  else c0

/-- The always-applied wrap rule (lines 267-268): `num - 1` on the right of
the comparison is computed in `u32`, so `num = 0` compares against
`2^32 - 1`. -/
def wrapCursor (num : Nat) (c : Int) : Int :=
  let c1 := if c < 0 then (num : Int) - 1 else c
  if u32 c1 > (num + (U32M - 1)) % U32M then 0 else c1

/-- The scroll recompute (lines 270-279): two successive `if`s, the second
reading the `windowPos` possibly just written by the first;
`cursorPos - (SCREEN_ROWS - 1)` is computed in `u32`. -/
def scrollWindow (c : Int) (w : Nat) : Nat :=
  let w1 := if u32 c < w then u32 c else w
  if u32 c ≥ (w1 + SCREEN_ROWS) % U32M then (u32 c + (U32M - (SCREEN_ROWS - 1))) % U32M
  else w1

/-- One tick of the navigation state machine for a pressed-key set:
movement arithmetic, then wrap, then scroll recompute. -/
def navStep (k : KeysDown) (num : Nat) (s : NavState) : NavState :=
  let c := wrapCursor num (moveCursor k num s.cursorPos)
  ⟨c, scrollWindow c s.windowPos⟩

/-- `pathAppend(src, …, dst)` (lines 192-214), success path at the string
level (the reallocation bookkeeping only decides between in-place growth
and failure; on failure the source frees `src` and returns NULL). A `'/'`
(47) is inserted iff `src` does not already end with one
(`src[srcLen - 1] != '/'`; the source requires `src` non-empty). -/
def pathAppend (src dst : List Nat) : List Nat :=
  let addSlash : Bool := src.getLastD 0 != 47
  (if addSlash then src ++ [47] else src) ++ dst

/-- Index of the last `'/'` in the path, as found by the backward scan
`while(*--tmpPathPtr != '/');` of lines 319-320. -/
def lastSlash (s : List Nat) : Option Nat :=
  match s.reverse.findIdx? (fun b => b == 47) with
  | none => none
  | some j => some (s.length - 1 - j)

/-- The KEY_B truncate-to-parent of `browseFiles` (lines 317-323): cut the
path at the last `'/'`, except that a `'/'` immediately preceded by `':'`
(58) is kept (`tmpPathPtr++` before writing the terminator). A path without
any `'/'` never terminates the C scan; it is unreachable for the absolute
paths the browser maintains and the model returns the path unchanged. -/
def truncateToParent (s : List Nat) : List Nat :=
  match lastSlash s with
  | none => s
  | some i => if 1 ≤ i ∧ s.getD (i - 1) 0 = 58 then s.take (i + 1) else s.take i

/-- Bytes of `"sdmc:/"`. -/
def SDMC_ROOT : List Nat := [115, 100, 109, 99, 58, 47]

/-- Bytes of `"games"`. -/
def GAMES : List Nat := [103, 97, 109, 101, 115]

/-- Bytes of `".gba"`, the suffix filter `browseFiles` passes to `scanDir`. -/
def GBA : List Nat := [46, 103, 98, 97]

/-- A directory listing of 129 admissible entries (directories named "A"):
one more than the initial capacity, forcing one `dlistGrow`. -/
def dirents129 : List (List Nat × Bool) := List.replicate 129 ([65], true)

/-- Allocation oracle: allocation number 130 — the `dlistGrow` of the full
128-entry list (after `fis`, the list backing and 128 names) — is denied. -/
def oracleGrowFails : List Bool := List.replicate 130 true ++ [false]

/-- Allocation oracle: the grow at allocation 130 succeeds, but the
following name allocation (number 131) is denied. -/
def oracleNameAfterGrowFails : List Bool := List.replicate 131 true ++ [false]

/-- A previously returned one-entry list sitting in the caller's slot:
backing storage id 99, its entry's name id 100. -/
def prevSmall : MDirList := ⟨99, DLIST_GROW_SIZE, some 1, [⟨ENTRY_FILE, 100, [97]⟩]⟩

/-- Heap in which `prevSmall` and its name are the live allocations. -/
def heapPrev : Heap := ⟨101, [99, 100]⟩

/-- Allocation oracle: the first allocation of the rescan (the `FILINFO`
buffer, allocation number 101) is denied. -/
def oracleFisFails : List Bool := List.replicate 101 true ++ [false]

/-- `strcmp` is antisymmetric: swapping the arguments negates the result. -/
theorem strcmp_neg (a : List Nat) : ∀ b, strcmp a b = - strcmp b a := by
  induction a with
  | nil => intro b; cases b <;> simp [strcmp]
  | cons x as ih =>
    intro b
    cases b with
    | nil => simp [strcmp]
    | cons y bs =>
      simp only [strcmp]
      by_cases hxy : (x : Int) - (y : Int) ≠ 0
      · have hyx : (y : Int) - (x : Int) ≠ 0 := by omega
        rw [if_pos hxy, if_pos hyx]; omega
      · have hyx : ¬((y : Int) - (x : Int) ≠ 0) := by omega
        have hxy2 : x = y := by omega
        rw [if_neg hxy, if_neg hyx, hxy2]
        by_cases h0 : y = 0
        · rw [if_pos h0, if_pos h0]; rfl
        · rw [if_neg h0, if_neg h0, ih bs]

/-- `strcmp`-nonpositivity is transitive (the byte-wise lexicographic order). -/
theorem strcmp_trans (a : List Nat) :
    ∀ b c, strcmp a b ≤ 0 → strcmp b c ≤ 0 → strcmp a c ≤ 0 := by
  induction a with
  | nil =>
    intro b c _ _
    cases c <;> simp [strcmp]
  | cons x as ih =>
    intro b c h1 h2
    cases b with
    | nil =>
      have hx : x = 0 := by
        simp only [strcmp] at h1; omega
      cases c with
      | nil => simp only [strcmp]; omega
      | cons z cs =>
        simp only [strcmp]
        by_cases hxz : (x : Int) - (z : Int) ≠ 0
        · rw [if_pos hxz]; omega
        · rw [if_neg hxz, if_pos hx]
    | cons y bs =>
      cases c with
      | nil =>
        have hy : y = 0 := by
          simp only [strcmp] at h2; omega
        have hx : x = 0 := by
          simp only [strcmp, hy] at h1
          by_cases hxy : (x : Int) - ((0 : Nat) : Int) ≠ 0
          · rw [if_pos hxy] at h1; omega
          · omega
        simp only [strcmp]; omega
      | cons z cs =>
        simp only [strcmp] at h1 h2 ⊢
        by_cases hxy : (x : Int) - (y : Int) ≠ 0
        · rw [if_pos hxy] at h1
          by_cases hyz : (y : Int) - (z : Int) ≠ 0
          · rw [if_pos hyz] at h2
            have hxz : (x : Int) - (z : Int) ≠ 0 := by omega
            rw [if_pos hxz]; omega
          · have hyz2 : y = z := by omega
            have hxz : (x : Int) - (z : Int) ≠ 0 := by omega
            rw [if_pos hxz]; omega
        · have hxy2 : x = y := by omega
          rw [if_neg hxy] at h1
          by_cases hyz : (y : Int) - (z : Int) ≠ 0
          · have hxz : (x : Int) - (z : Int) ≠ 0 := by omega
            rw [if_pos hyz] at h2
            rw [if_pos hxz]; omega
          · have hyz2 : y = z := by omega
            have hxz : ¬((x : Int) - (z : Int) ≠ 0) := by omega
            rw [if_neg hyz] at h2
            rw [if_neg hxz]
            by_cases h0 : x = 0
            · rw [if_pos h0]
            · rw [if_neg h0]
              rw [if_neg h0] at h1
              have h0y : ¬(y = 0) := by omega
              rw [if_neg h0y] at h2
              exact ih bs cs h1 h2

/-- On NUL-free byte strings, `strcmp` returns 0 exactly on equal strings. -/
theorem strcmp_eq_zero_iff (a : List Nat) :
    ∀ b, 0 ∉ a → 0 ∉ b → (strcmp a b = 0 ↔ a = b) := by
  induction a with
  | nil =>
    intro b _ hb
    cases b with
    | nil => simp [strcmp]
    | cons y bs =>
      simp only [strcmp]
      constructor
      · intro h
        have hy : y = 0 := by omega
        subst hy
        exact absurd (List.mem_cons_self 0 bs) hb
      · intro h; simp at h
  | cons x as ih =>
    intro b ha hb
    cases b with
    | nil =>
      simp only [strcmp]
      constructor
      · intro h
        have hx : x = 0 := by omega
        subst hx
        exact absurd (List.mem_cons_self 0 as) ha
      · intro h; simp at h
    | cons y bs =>
      have hx0 : x ≠ 0 := fun h => ha (h ▸ List.mem_cons_self x as)
      have has : 0 ∉ as := fun h => ha (List.mem_cons_of_mem x h)
      have hbs : 0 ∉ bs := fun h => hb (List.mem_cons_of_mem y h)
      simp only [strcmp]
      by_cases hxy : (x : Int) - (y : Int) ≠ 0
      · rw [if_pos hxy]
        constructor
        · intro h; omega
        · intro h
          have : x = y := by injection h
          omega
      · have hxy2 : x = y := by omega
        rw [if_neg hxy, if_neg hx0, hxy2]
        rw [ih bs has hbs]
        constructor
        · intro h; rw [h]
        · intro h; injection h

/-- `entLe` is total. -/
theorem entLe_total (a b : MEntry) : entLe a b ∨ entLe b a := by
  unfold entLe dlistCompare
  by_cases ht : a.type = b.type
  · have hne : ¬(b.type ≠ a.type) := by omega
    rw [if_neg (by omega : ¬(a.type ≠ b.type)), if_neg hne]
    have := strcmp_neg a.name b.name
    omega
  · rw [if_pos (by omega : a.type ≠ b.type), if_pos (by omega : b.type ≠ a.type)]
    omega

/-- `entLe` is transitive. -/
theorem entLe_trans (a b c : MEntry) : entLe a b → entLe b c → entLe a c := by
  unfold entLe dlistCompare
  intro h1 h2
  by_cases hab : a.type = b.type
  · rw [if_neg (by omega : ¬(a.type ≠ b.type))] at h1
    by_cases hbc : b.type = c.type
    · rw [if_neg (by omega : ¬(b.type ≠ c.type))] at h2
      rw [if_neg (by omega : ¬(a.type ≠ c.type))]
      exact strcmp_trans a.name b.name c.name h1 h2
    · rw [if_pos (by omega : b.type ≠ c.type)] at h2
      rw [if_pos (by omega : a.type ≠ c.type)]
      omega
  · rw [if_pos (by omega : a.type ≠ b.type)] at h1
    by_cases hbc : b.type = c.type
    · rw [if_pos (by omega : a.type ≠ c.type)]
      omega
    · rw [if_pos (by omega : b.type ≠ c.type)] at h2
      rw [if_pos (by omega : a.type ≠ c.type)]
      omega

/-- Membership in an ordered insertion. -/
theorem mem_orderedIns (e x : MEntry) :
    ∀ l : List MEntry, x ∈ orderedIns e l ↔ x = e ∨ x ∈ l := by
  intro l
  induction l with
  | nil => simp [orderedIns]
  | cons y ys ih =>
    simp only [orderedIns]
    by_cases h : dlistCompare e y ≤ 0
    · rw [if_pos h]
      simp only [List.mem_cons]
    · rw [if_neg h]
      simp only [List.mem_cons, ih]
      tauto

/-- Ordered insertion preserves sortedness under `entLe`. -/
theorem pairwise_orderedIns (e : MEntry) :
    ∀ l : List MEntry, l.Pairwise entLe → (orderedIns e l).Pairwise entLe := by
  intro l
  induction l with
  | nil => intro _; simp [orderedIns, entLe]
  | cons y ys ih =>
    intro hp
    rcases List.pairwise_cons.mp hp with ⟨hy, hys⟩
    simp only [orderedIns]
    by_cases h : dlistCompare e y ≤ 0
    · rw [if_pos h]
      refine List.pairwise_cons.mpr ⟨?_, hp⟩
      intro a ha
      rcases List.mem_cons.mp ha with rfl | ha2
      · exact h
      · exact entLe_trans e y a h (hy a ha2)
    · rw [if_neg h]
      refine List.pairwise_cons.mpr ⟨?_, ih hys⟩
      intro a ha
      rcases (mem_orderedIns e a ys).mp ha with rfl | ha2
      · rcases entLe_total y a with hya | hay
        · exact hya
        · exact absurd hay h
      · exact hy a ha2

/-- The model of `qsort` with `dlistCompare` produces an `entLe`-sorted list. -/
theorem pairwise_dlistSort : ∀ l : List MEntry, (dlistSort l).Pairwise entLe := by
  intro l
  induction l with
  | nil => simp [dlistSort]
  | cons e es ih => exact pairwise_orderedIns e (dlistSort es) ih

/-- Characterization of a successful `dlistGrow`: the new header's `size` is
uninitialized, capacity grew by one increment, and the initialized prefix is
the `memcpy`d `size`-entry prefix of the old list. -/
theorem dlistGrow_ok_some (oracle : List Bool) (h : Heap) (d od : MDirList) (h1 : Heap)
    (hg : dlistGrow oracle h d = .ok (some od) h1) :
    od.size = none ∧ od.capacity = d.capacity + DLIST_GROW_SIZE ∧
    ∃ sz, d.size = some sz ∧ sz ≤ d.entries.length ∧ od.entries = d.entries.take sz := by
  unfold dlistGrow at hg
  rcases hh : halloc oracle h with ⟨o1, ha⟩
  simp only [hh] at hg
  cases o1 with
  | none =>
    rcases hf : hfree ha d.id with _ | h2 <;> simp only [hf] at hg <;> simp at hg
  | some nid =>
    rcases hs : d.size with _ | sz <;> simp only [hs] at hg
    · simp at hg
    · by_cases hle : sz ≤ d.entries.length
      · simp only [if_pos hle] at hg
        rcases hf : hfree ha d.id with _ | h2 <;> simp only [hf] at hg
        · simp at hg
        · simp only [HRes.ok.injEq, Option.some.injEq] at hg
          obtain ⟨hod, _⟩ := hg
          subst hod
          exact ⟨rfl, rfl, sz, by simp [hs], hle, rfl⟩
      · simp only [if_neg hle] at hg
        simp at hg

/-- Loop invariant of `scanDir`'s entry loop: whenever the loop terminates
normally (`done`), the final list's `size` field equals the length of its
initialized entry prefix (the bail and undefined-behaviour exits are exactly
the paths where this can break). -/
theorem scanLoop_done_size (oracle : List Bool) (filter : List Nat)
    (dirents : List (List Nat × Bool)) :
    ∀ (h : Heap) (d : MDirList) (n : Nat) (res : Res) (d1 : MDirList) (hh : Heap),
      d.size = some n → d.entries.length = n → n ≤ d.capacity →
      scanLoop oracle filter h d n dirents = .ok (.done res d1) hh →
      d1.size = some d1.entries.length := by
  induction dirents with
  | nil =>
    intro h d n res d1 hh hsz hlen _ hstep
    simp only [scanLoop, HRes.ok.injEq, LoopExit.done.injEq] at hstep
    obtain ⟨⟨_, hd⟩, _⟩ := hstep
    subst hd
    rw [hsz, hlen]
  | cons p rest ih =>
    intro h d n res d1 hh hsz hlen hcap hstep
    obtain ⟨fname, isDir⟩ := p
    simp only [scanLoop] at hstep
    generalize hT : (if isDir = true then ENTRY_DIRECTORY else ENTRY_FILE) = t at hstep
    split at hstep
    · exact ih h d n res d1 hh hsz hlen hcap hstep
    · split at hstep
      · simp at hstep
      · rename_i sz heqsz
        split at hstep
        · simp at hstep
        · simp at hstep
        · rename_i d2 h1 heq
          split at hstep
          · simp at hstep
          · rename_i nid h2 heq2
            split at hstep
            · rename_i hlt
              have hd2len : d2.entries.length = n := by
                by_cases hfull : sz = d.capacity
                · rw [if_pos hfull] at heq
                  obtain ⟨_, _, sz2, hdsz, hle2, he2⟩ :=
                    dlistGrow_ok_some oracle h d d2 h1 heq
                  rw [hsz] at hdsz
                  have hsz2 : sz2 = n := by
                    injection hdsz with q
                    omega
                  rw [he2, List.length_take, hlen, hsz2]
                  omega
                · rw [if_neg hfull] at heq
                  simp only [HRes.ok.injEq, Option.some.injEq] at heq
                  obtain ⟨hd2, _⟩ := heq
                  rw [← hd2, hlen]
              omega
            · split at hstep
              · rename_i happ
                obtain ⟨happ1, happ2⟩ := happ
                exact ih h2 _ (n + 1) res d1 hh rfl
                  (by simp [List.length_append, ← happ1]) (by simp; omega) hstep
              · simp at hstep

/-- Characterization of a successful `dlistNew`. -/
theorem dlistNew_some (oracle : List Bool) (h : Heap) (d0 : MDirList) (h1 : Heap)
    (hn : dlistNew oracle h = (some d0, h1)) :
    d0.size = some 0 ∧ d0.entries = [] ∧ d0.capacity = DLIST_GROW_SIZE := by
  unfold dlistNew at hn
  rcases hh : halloc oracle h with ⟨o1, ha⟩
  cases o1 <;> simp only [hh] at hn
  · simp at hn
  · simp only [Prod.mk.injEq, Option.some.injEq] at hn
    obtain ⟨hd0, _⟩ := hn
    subst hd0
    exact ⟨rfl, rfl, rfl⟩

/-- C5: for every scan that completes successfully (it returns `RES_OK` and
stores the newly built list in the slot), the resulting entry list is sorted
under the two-key order: no File entry precedes a Directory entry anywhere
in the list, and any two consecutive entries of the same kind have byte-wise
lexicographically non-decreasing names (plain `strcmp`, no locale collation,
no case folding). -/
theorem c5_scan_result_sorted (oracle : List Bool) (h : Heap) (prev : Option MDirList)
    (openOk : Bool) (dirents : List (List Nat × Bool)) (filter : List Nat)
    (d : MDirList) (hOut : Heap)
    (hscan : scanDir oracle h false prev openOk dirents filter
      = .ok (Res.ok, some d) hOut) :
    d.entries.Pairwise (fun a b => a.type = ENTRY_FILE → b.type = ENTRY_DIRECTORY → False)
    ∧ d.entries.Chain' (fun a b => a.type = b.type → strcmp a.name b.name ≤ 0) := by
  have hsorted : ∃ l : List MEntry, d.entries = dlistSort l := by
    simp only [scanDir, Bool.false_eq_true, if_false] at hscan
    rcases hPrev : (match prev with | some p => hfree h p.id | none => some h) with _ | h1 <;>
      simp only [hPrev] at hscan
    · simp at hscan
    · rcases hFis : halloc oracle h1 with ⟨_ | fisId, h2⟩ <;> simp only [hFis] at hscan
      · simp at hscan
      · rcases hNew : dlistNew oracle h2 with ⟨_ | d0, h3⟩ <;> simp only [hNew] at hscan
        · simp at hscan
        · rcases hLoop : (if openOk then scanLoop oracle filter h3 d0 0 dirents
              else .ok (.done Res.ioError d0) h3) with ⟨⟨res1, d1v⟩ | dOptv, h4⟩ | ⟨e, h4⟩ <;>
            simp only [hLoop] at hscan
          · -- normal loop termination
            rcases hF2 : hfree h4 fisId with _ | h5 <;> simp only [hF2] at hscan
            · simp at hscan
            · rcases hS : d1v.size with _ | sz <;> simp only [hS] at hscan
              · simp at hscan
              · by_cases hle : sz ≤ d1v.entries.length
                · simp only [if_pos hle] at hscan
                  simp only [HRes.ok.injEq, Prod.mk.injEq, Option.some.injEq] at hscan
                  obtain ⟨⟨hres1, hdval⟩, _⟩ := hscan
                  by_cases hOpen : openOk = true
                  · rw [if_pos hOpen] at hLoop
                    obtain ⟨hsz0, hent0, _⟩ := dlistNew_some oracle h2 d0 h3 hNew
                    have hinv : d1v.size = some d1v.entries.length :=
                      scanLoop_done_size oracle filter dirents h3 d0 0 res1 d1v h4
                        hsz0 (by rw [hent0]; rfl) (Nat.zero_le _) hLoop
                    have hszlen : sz = d1v.entries.length := by
                      rw [hS] at hinv; injection hinv
                    subst hszlen
                    rw [List.take_length, List.drop_length, List.append_nil] at hdval
                    exact ⟨d1v.entries, by rw [← hdval]⟩
                  · rw [if_neg hOpen] at hLoop
                    simp only [HRes.ok.injEq, LoopExit.done.injEq] at hLoop
                    obtain ⟨⟨hio, _⟩, _⟩ := hLoop
                    rw [← hio] at hres1
                    exact absurd hres1 (by simp)
                · simp only [if_neg hle] at hscan
                  simp at hscan
          · -- bail exit: always returns RES_OUT_OF_MEM, never RES_OK
            rcases hF2 : hfree h4 fisId with _ | h5 <;> simp only [hF2] at hscan
            · simp at hscan
            · rcases hDF : dlistFree h5 dOptv with ⟨u, h6⟩ | ⟨e2, h6⟩ <;>
                simp only [hDF] at hscan <;> simp at hscan
          · simp at hscan
  obtain ⟨l, hdl⟩ := hsorted
  have hp : d.entries.Pairwise entLe := by rw [hdl]; exact pairwise_dlistSort l
  constructor
  · refine hp.imp ?_
    intro a b hab hf hd
    unfold entLe dlistCompare at hab
    rw [hf, hd] at hab
    simp only [ENTRY_FILE, ENTRY_DIRECTORY] at hab
    norm_num at hab
  · refine List.Pairwise.chain' (hp.imp ?_)
    intro a b hab ht
    unfold entLe dlistCompare at hab
    rw [if_neg (by omega : ¬ a.type ≠ b.type)] at hab
    exact hab

/-- C6: during a scan with suffix filter `f`, a File entry named `name` is
admitted (i.e. not skipped) iff `len(name) > len(f)`, the trailing `len(f)`
bytes of `name` equal `f` byte-for-byte (case-sensitively), and `name` does
not begin with `'.'` (46); Directory entries are never skipped, whatever
the filter. Hypotheses: C strings contain no NUL byte. -/
theorem c6_admission (filter fname : List Nat) (hf : 0 ∉ filter) (hn : 0 ∉ fname) :
    (entrySkipped filter fname ENTRY_FILE = false ↔
      (filter.length < fname.length ∧
       fname.drop (fname.length - filter.length) = filter ∧
       fname.headD 0 ≠ 46))
    ∧ entrySkipped filter fname ENTRY_DIRECTORY = false := by
  constructor
  · have hsub : (0 : Nat) ∉ fname.drop (fname.length - filter.length) :=
      fun hm => hn (List.drop_subset _ _ hm)
    have hs := strcmp_eq_zero_iff filter (fname.drop (fname.length - filter.length)) hf hsub
    simp only [entrySkipped, skipFile, ENTRY_FILE]
    simp [hs]
    constructor
    · rintro ⟨⟨h1, h2⟩, h3⟩
      exact ⟨h1, h2.symm, h3⟩
    · rintro ⟨h1, h2, h3⟩
      exact ⟨⟨h1, h2.symm⟩, h3⟩
  · simp [entrySkipped, ENTRY_DIRECTORY, ENTRY_FILE]

/-- Witness for C6 at the filter ".gba" and the file name "a.gba". -/
theorem c6_admission_witness :
    ((entrySkipped GBA [97, 46, 103, 98, 97] ENTRY_FILE = false ↔
      (GBA.length < ([97, 46, 103, 98, 97] : List Nat).length ∧
       ([97, 46, 103, 98, 97] : List Nat).drop
           (([97, 46, 103, 98, 97] : List Nat).length - GBA.length) = GBA ∧
       ([97, 46, 103, 98, 97] : List Nat).headD 0 ≠ 46))
     ∧ entrySkipped GBA [97, 46, 103, 98, 97] ENTRY_DIRECTORY = false) :=
  c6_admission GBA [97, 46, 103, 98, 97] (by decide) (by decide)

/-- C9: path append and truncate-to-parent round-trip around the root
marker: appending "games" to "sdmc:/" yields "sdmc:/games" without an extra
separator (the path already ends in one; the last conjunct shows the
separator that is inserted when it does not); truncate-to-parent of
"sdmc:/games" yields "sdmc:/"; truncate-to-parent of "sdmc:/" yields
"sdmc:/" unchanged — truncation never deletes the separator that
immediately follows the ':' root marker. -/
theorem c9_path_round_trip :
    pathAppend SDMC_ROOT GAMES = SDMC_ROOT ++ GAMES
    ∧ truncateToParent (SDMC_ROOT ++ GAMES) = SDMC_ROOT
    ∧ truncateToParent SDMC_ROOT = SDMC_ROOT
    ∧ pathAppend (SDMC_ROOT ++ GAMES) [120] = SDMC_ROOT ++ GAMES ++ [47, 120] := by
  decide

set_option maxRecDepth 100000 in
/-- C1: evaluation of `scanDir` on a directory of 129 admissible entries
with the growth allocation denied. `dlistGrow` frees only the old backing
storage (the 128 separately allocated entry names are not released) and
returns NULL; the bail path then passes that NULL list pointer to
`dlistFree`, which dereferences it. The scan therefore crashes instead of
returning OutOfMemory, and at the moment of the crash the 128 name blocks
(ids 2..129) are still live — nothing has released them. -/
theorem c1_grow_failure_crash :
    scanDir oracleGrowFails ⟨0, []⟩ false none true dirents129 GBA
      = .ub .nullDeref ⟨131, (List.range' 2 128).reverse⟩
    ∧ (List.range' 2 128).reverse.length = 128 := by
  decide

set_option maxRecDepth 100000 in
/-- C10: evaluation of `scanDir` on the same directory when the growth
allocation succeeds but the very next name allocation fails. Because
`dlistGrow` never initializes the new header's `size` field, the bail
path's `dlistFree` reads an uninitialized `size` — the invariant
"`size` equals the number of names allocated so far" is broken right after
every successful grow, and `dlistFree` walks an indeterminate entry count. -/
theorem c10_uninit_size_read :
    scanDir oracleNameAfterGrowFails ⟨0, []⟩ false none true dirents129 GBA
      = .ub .uninitRead ⟨132, 130 :: (List.range' 2 128).reverse⟩ := by
  decide

/-- C2: evaluation of a rescan whose slot holds a previously returned
one-entry list (`prevSmall`, backing id 99, entry name id 100) and whose
first allocation (the `FILINFO` buffer) fails. The call frees only the
previous list's backing storage (id 99) — with `fcramFree`, not
`dlistFree`, so the owned entry name (id 100) is never freed and stays
live — and returns with the slot still holding the pointer to the freed
list: a dangling reference, not "at most the newly produced list". -/
theorem c2_stale_slot :
    scanDir oracleFisFails heapPrev false (some prevSmall) true [] GBA
      = .ok (Res.outOfMem, some prevSmall) ⟨102, [100]⟩
    ∧ prevSmall.id ∉ ([100] : List Nat)
    ∧ prevSmall.entries.map (fun e => e.nameId) = [100] := by
  decide

/-- Bounds on the movement arithmetic: from a valid cursor, the four key
handlers (in any combination) leave the pre-wrap cursor within
`[-2, num + 1]`. -/
theorem moveCursor_bounds (k : KeysDown) (num : Nat) (c : Int)
    (h1 : 0 < num) (h2 : num ≤ 2147483648) (h3 : 0 ≤ c) (h4 : c < num) :
    -2 ≤ moveCursor k num c ∧ moveCursor k num c ≤ (num : Int) + 1 := by
  rcases k with ⟨r, l, u, dn⟩
  simp only [moveCursor, u32, U32M, SCREEN_ROWS]
  cases r <;> cases l <;> cases u <;> cases dn <;> simp <;>
    ((try split_ifs) <;> omega)

/-- The always-applied wrap rule brings any pre-wrap cursor produced by the
movement arithmetic back into `[0, num)`. -/
theorem wrapCursor_mem (num : Nat) (c : Int)
    (h1 : 0 < num) (h2 : num ≤ 2147483648) (h3 : -2147483648 ≤ c)
    (h4 : c ≤ 2147483649) :
    0 ≤ wrapCursor num c ∧ wrapCursor num c < num := by
  simp only [wrapCursor, u32, U32M]
  split_ifs <;> omega

/-- The scroll recompute restores the window invariant for any in-range
cursor. -/
theorem scrollWindow_inv (c : Int) (w : Nat)
    (h1 : 0 ≤ c) (h2 : c < 2147483648) (h3 : w < 2147483648) :
    (scrollWindow c w : Int) ≤ c ∧ c < (scrollWindow c w : Int) + SCREEN_ROWS := by
  simp only [scrollWindow, u32, U32M, SCREEN_ROWS]
  split_ifs <;> omega

/-- C7: for any pressed-key combination applied to a non-empty list from a
valid state, after the cursor update, wrap and scroll recompute the window
invariant holds: `windowStart ≤ cursor`, and `cursor < windowStart +
pageSize` (stated under the list-at-least-one-page hypothesis of the claim,
though it holds regardless). Additionally the scroll recompute behaves
exactly as specified: it sets `windowStart = cursor` when
`cursor < windowStart`, sets `windowStart = cursor - (pageSize - 1)` when
`cursor ≥ windowStart + pageSize`, and leaves `windowStart` unchanged
otherwise. -/
theorem c7_window_invariant (k : KeysDown) (num : Nat) (s : NavState)
    (h1 : 0 < num) (h2 : num ≤ 2147483648) (h3 : 0 ≤ s.cursorPos)
    (h4 : s.cursorPos < num) (h5 : s.windowPos < 2147483648) :
    (((navStep k num s).windowPos : Int) ≤ (navStep k num s).cursorPos
      ∧ (SCREEN_ROWS ≤ num →
          (navStep k num s).cursorPos < ((navStep k num s).windowPos : Int) + SCREEN_ROWS))
    ∧ (∀ (c : Int) (w : Nat), 0 ≤ c → c < 2147483648 → w < 2147483648 →
        ((c < w → scrollWindow c w = c.toNat)
         ∧ ((w : Int) + SCREEN_ROWS ≤ c → scrollWindow c w = c.toNat - (SCREEN_ROWS - 1))
         ∧ ((w : Int) ≤ c → c < w + SCREEN_ROWS → scrollWindow c w = w))) := by
  constructor
  · have hm := moveCursor_bounds k num s.cursorPos h1 h2 h3 h4
    have hw := wrapCursor_mem num (moveCursor k num s.cursorPos) h1 h2
      (by omega) (by omega)
    have hs := scrollWindow_inv (wrapCursor num (moveCursor k num s.cursorPos))
      s.windowPos (by omega) (by omega) h5
    simp only [navStep]
    exact ⟨hs.1, fun _ => hs.2⟩
  · intro c w hc1 hc2 hw1
    refine ⟨?_, ?_, ?_⟩
    · intro hlt
      simp only [scrollWindow, u32, U32M, SCREEN_ROWS] at hlt ⊢
      split_ifs <;> omega
    · intro hge
      simp only [scrollWindow, u32, U32M, SCREEN_ROWS] at hge ⊢
      split_ifs <;> omega
    · intro hge hlt
      simp only [scrollWindow, u32, U32M, SCREEN_ROWS] at hge hlt ⊢
      split_ifs <;> omega

/-- Witness for C7: Step-down on a 100-entry list from cursor 22,
window 0. -/
theorem c7_window_invariant_witness :
    (((navStep ⟨false, false, false, true⟩ 100 ⟨22, 0⟩).windowPos : Int)
        ≤ (navStep ⟨false, false, false, true⟩ 100 ⟨22, 0⟩).cursorPos
      ∧ (SCREEN_ROWS ≤ 100 →
          (navStep ⟨false, false, false, true⟩ 100 ⟨22, 0⟩).cursorPos
            < ((navStep ⟨false, false, false, true⟩ 100 ⟨22, 0⟩).windowPos : Int)
              + SCREEN_ROWS))
    ∧ (∀ (c : Int) (w : Nat), 0 ≤ c → c < 2147483648 → w < 2147483648 →
        ((c < w → scrollWindow c w = c.toNat)
         ∧ ((w : Int) + SCREEN_ROWS ≤ c → scrollWindow c w = c.toNat - (SCREEN_ROWS - 1))
         ∧ ((w : Int) ≤ c → c < w + SCREEN_ROWS → scrollWindow c w = w))) :=
  c7_window_invariant ⟨false, false, false, true⟩ 100 ⟨22, 0⟩
    (by decide) (by decide) (by decide) (by decide) (by decide)

/-- C8: the wrap rule maps a cursor below 0 to `num - 1` and a cursor at or
beyond `num` to 0; concretely with a 5-entry list, Step-up from cursor 0
yields 4 and Step-down from cursor 4 yields 0. -/
theorem c8_cursor_wrap (num : Nat) (c : Int)
    (h1 : 0 < num) (h2 : num ≤ 2147483648) (h3 : c < 2147483648) :
    ((c < 0 → wrapCursor num c = (num : Int) - 1)
      ∧ ((num : Int) ≤ c → wrapCursor num c = 0))
    ∧ (navStep ⟨false, false, true, false⟩ 5 ⟨0, 0⟩).cursorPos = 4
    ∧ (navStep ⟨false, false, false, true⟩ 5 ⟨4, 0⟩).cursorPos = 0 := by
  refine ⟨⟨?_, ?_⟩, by decide, by decide⟩
  · intro hc
    simp only [wrapCursor, u32, U32M]
    split_ifs <;> omega
  · intro hc
    simp only [wrapCursor, u32, U32M]
    split_ifs <;> omega

/-- Witness for C8 at `num = 5`, `c = -1`. -/
theorem c8_cursor_wrap_witness :
    (((-1 : Int) < 0 → wrapCursor 5 (-1) = ((5 : Nat) : Int) - 1)
      ∧ (((5 : Nat) : Int) ≤ -1 → wrapCursor 5 (-1) = 0))
    ∧ (navStep ⟨false, false, true, false⟩ 5 ⟨0, 0⟩).cursorPos = 4
    ∧ (navStep ⟨false, false, false, true⟩ 5 ⟨4, 0⟩).cursorPos = 0 :=
  c8_cursor_wrap 5 (-1) (by decide) (by decide) (by decide)

/-- C3 counterexample: with a 25-entry list and cursor 1, Page-forward lands
the cursor on 0, not on `min (1 + pageSize) (n - 1) = 24`: the clamp
`(u32)cursorPos > num` does not fire when `cursor + pageSize` equals `num`
exactly, and the wrap rule then sends the cursor to 0. -/
theorem c3_counterexample :
    (navStep ⟨true, false, false, false⟩ 25 ⟨1, 0⟩).cursorPos = 0
    ∧ (0 : Int) ≠ min ((1 : Int) + (SCREEN_ROWS : Int)) ((25 : Int) - 1) := by
  decide

/-- C3 amended: Page-forward sets the cursor (after the wrap rule) to
`min (c + pageSize) (n - 1)` except when `c + pageSize` lands on `n`
exactly, in which case the clamp does not fire and the wrap rule yields 0. -/
theorem c3_page_forward (num : Nat) (c : Int) (w : Nat)
    (h1 : 0 < num) (h2 : num ≤ 2147483648) (h3 : 0 ≤ c) (h4 : c < num) :
    (navStep ⟨true, false, false, false⟩ num ⟨c, w⟩).cursorPos =
      if c + (SCREEN_ROWS : Int) = num then 0
      else min (c + (SCREEN_ROWS : Int)) ((num : Int) - 1) := by
  simp only [navStep, moveCursor, wrapCursor, u32, U32M, SCREEN_ROWS]
  simp
  split_ifs <;> omega

/-- Witness for C3 (amended) at `num = 30`, `c = 20`. -/
theorem c3_page_forward_witness :
    (navStep ⟨true, false, false, false⟩ 30 ⟨20, 0⟩).cursorPos =
      if (20 : Int) + (SCREEN_ROWS : Int) = ((30 : Nat) : Int) then 0
      else min ((20 : Int) + (SCREEN_ROWS : Int)) (((30 : Nat) : Int) - 1) :=
  c3_page_forward 30 20 0 (by decide) (by decide) (by decide) (by decide)

/-- C4 counterexample: with a 30-entry list and cursor 0, Page-backward sets
the pre-wrap cursor to 0 — the code's floor is `if(cursorPos < -1)
cursorPos = 0`, not the claimed floor at -1 — so the wrap rule never fires
and the cursor stays at 0 instead of wrapping to `n - 1 = 29`. -/
theorem c4_counterexample :
    moveCursor ⟨false, true, false, false⟩ 30 0 = 0
    ∧ (0 : Int) ≠ -1
    ∧ (navStep ⟨false, true, false, false⟩ 30 ⟨0, 0⟩).cursorPos = 0
    ∧ (0 : Int) ≠ (30 : Int) - 1 := by
  decide

/-- C4 amended: Page-backward sets the pre-wrap cursor to `c - pageSize`
when that is at least -1, and to 0 (not -1) when it falls below -1.
Consequently a backward page wraps to `n - 1` only from
`c = pageSize - 1` (where the arithmetic gives exactly -1); from any
`c < pageSize - 1` it lands on 0, and otherwise on `c - pageSize`. -/
theorem c4_page_backward (num : Nat) (c : Int) (w : Nat)
    (h1 : 0 < num) (h2 : num ≤ 2147483648) (h3 : 0 ≤ c) (h4 : c < num) :
    moveCursor ⟨false, true, false, false⟩ num c =
      (if c - (SCREEN_ROWS : Int) < -1 then 0 else c - (SCREEN_ROWS : Int))
    ∧ (navStep ⟨false, true, false, false⟩ num ⟨c, w⟩).cursorPos =
      (if c = (SCREEN_ROWS : Int) - 1 then (num : Int) - 1
       else if c < (SCREEN_ROWS : Int) - 1 then 0 else c - (SCREEN_ROWS : Int)) := by
  constructor
  · simp only [moveCursor, u32, U32M, SCREEN_ROWS]
    simp
    split_ifs <;> omega
  · simp only [navStep, moveCursor, wrapCursor, u32, U32M, SCREEN_ROWS]
    simp
    split_ifs <;> omega

/-- Witness for C4 (amended) at `num = 30`, `c = 23` (the one backward page
that does wrap to the end of the list). -/
theorem c4_page_backward_witness :
    (moveCursor ⟨false, true, false, false⟩ 30 23 =
      (if (23 : Int) - (SCREEN_ROWS : Int) < -1 then 0 else (23 : Int) - (SCREEN_ROWS : Int))
    ∧ (navStep ⟨false, true, false, false⟩ 30 ⟨23, 0⟩).cursorPos =
      (if (23 : Int) = (SCREEN_ROWS : Int) - 1 then ((30 : Nat) : Int) - 1
       else if (23 : Int) < (SCREEN_ROWS : Int) - 1 then 0
       else (23 : Int) - (SCREEN_ROWS : Int))) :=
  c4_page_backward 30 23 0 (by decide) (by decide) (by decide) (by decide)

/-- Witness for C5: a concrete successful two-entry scan (a file "b", then
a directory "a", with the empty filter) whose result list is the directory
first, then the file, sorted as claimed. -/
theorem c5_scan_result_sorted_witness :
    (([⟨ENTRY_DIRECTORY, 3, [97]⟩, ⟨ENTRY_FILE, 2, [98]⟩] : List MEntry).Pairwise
        (fun a b => a.type = ENTRY_FILE → b.type = ENTRY_DIRECTORY → False))
    ∧ (([⟨ENTRY_DIRECTORY, 3, [97]⟩, ⟨ENTRY_FILE, 2, [98]⟩] : List MEntry).Chain'
        (fun a b => a.type = b.type → strcmp a.name b.name ≤ 0)) :=
  c5_scan_result_sorted [] ⟨0, []⟩ none true [([98], false), ([97], true)] []
    ⟨1, 128, some 2, [⟨ENTRY_DIRECTORY, 3, [97]⟩, ⟨ENTRY_FILE, 2, [98]⟩]⟩ ⟨4, [3, 2, 1]⟩
    (by decide)
